import Mathlib

/-!
# Verification of the Levtiades atlas fusion / reindexing / validation core

Shallow embedding of the algorithmic core of the `levtiades` repository:

* `create_hierarchical` (src/levtiades_atlas/2_levtiades_to_mni2009c.py, offsets +5/+59)
  and `create_levtiades_hierarchical` (src/legacy_scripts/create_levtiades_atlas.py,
  offsets +100/+200): priority-based label fusion by painting layers from lowest to
  highest priority into one array, together with the replacement ledger (`changes`)
  and the pairwise overlap statistics of `create_with_overlaps`.
* `create_reindexing_map` / `create_reindexed_atlas` (src/legacy_scripts/reindex_atlas.py):
  sequential reindexing of the fused volume and the MRIcrogl lookup table
  (`create_sequential_lookup_table`).
* `validate_centroids_across_atlases` (src/legacy_scripts/create_csv_and_validate.py)
  and `validate_all_centroids` (src/legacy_scripts/validate_all_and_create_rois.py):
  per-region centroid comparison rows.
* `check_spatial_alignment` and the step 3–6 main flow of
  src/legacy_scripts/create_levtiades_atlas.py.

A voxel grid is modelled as a function `ι → ℤ` on a finite voxel index type `ι`
(numpy arrays after `.get_fdata().astype(int)`); elementwise numpy operations become
pointwise definitions.  Stores into `np.int16` arrays are modelled by `toInt16`
(wrap-around at 2^15).  Real-valued centroid arithmetic is carried out in `ℚ`;
the Euclidean distance `np.sqrt(Σ (a-b)^2)` is represented by its square `distSq`
(the square root is strictly monotone on nonnegatives, so comparisons such as
`distance < 2.0` correspond exactly to `distSq < 4`), which keeps every
definition executable.  The source rounds centroid coordinates for CSV display
(`round(x, 1)`); that presentation-only rounding is not modelled.
-/

set_option linter.unusedSectionVars false

/-- Wrap-around of an integer stored into a numpy `int16` cell. -/
def toInt16 (x : ℤ) : ℤ := (x + 32768) % 65536 - 32768

section FusionDefs

variable {ι : Type} [Fintype ι] [DecidableEq ι]

/-- Layer 3 paint (lowest priority): `combined[des_mask] = des[des_mask] + off3`
on an all-zero `int16` array, from `create_hierarchical`. -/
def hierPaint3 (off3 : ℤ) (des : ι → ℤ) : ι → ℤ :=
  fun v => if 0 < des v then toInt16 (des v + off3) else 0

/-- Layer 2 paint (medium priority): `combined[tian_mask] = tian[tian_mask] + off2`
over the layer-3 result. -/
def hierPaint2 (off2 off3 : ℤ) (des tian : ι → ℤ) : ι → ℤ :=
  fun v => if 0 < tian v then toInt16 (tian v + off2) else hierPaint3 off3 des v

/-- Layer 1 paint (highest priority): `combined[lev_mask] = lev[lev_mask]`
over the layer-2 result; the final fused array of `create_hierarchical`. -/
def hierPaint1 (off2 off3 : ℤ) (des tian lev : ι → ℤ) : ι → ℤ :=
  fun v => if 0 < lev v then toInt16 (lev v) else hierPaint2 off2 off3 des tian v

/-- Fused volume of `create_hierarchical` in
src/levtiades_atlas/2_levtiades_to_mni2009c.py (Tian offset +5, Destrieux offset +59). -/
def create_hierarchical_combined (lev tian des : ι → ℤ) : ι → ℤ :=
  hierPaint1 5 59 des tian lev

/-- Fused volume of `create_levtiades_hierarchical` in
src/legacy_scripts/create_levtiades_atlas.py (Tian offset +100, Destrieux offset +200). -/
def create_levtiades_hierarchical_combined (lev tian des : ι → ℤ) : ι → ℤ :=
  hierPaint1 100 200 des tian lev

/-- Ledger entry `changes['destrieux_replaced_by_tian']` of `create_hierarchical`:
voxels where the layer-3 array is in the Destrieux band (`combined >= 60`) and the
Tian mask holds. -/
def destrieux_replaced_by_tian (tian des : ι → ℤ) : ℕ :=
  (Finset.univ.filter (fun v => 60 ≤ hierPaint3 59 des v ∧ 0 < tian v)).card

/-- Ledger entry `changes['tian_replaced_by_levinson']` of `create_hierarchical`:
voxels where the layer-2 array is in the Tian band (`6 <= combined < 60`) and the
Levinson mask holds. -/
def tian_replaced_by_levinson (lev tian des : ι → ℤ) : ℕ :=
  (Finset.univ.filter (fun v =>
    6 ≤ hierPaint2 5 59 des tian v ∧ hierPaint2 5 59 des tian v < 60 ∧ 0 < lev v)).card

/-- Ledger entry `changes['destrieux_replaced_by_levinson']` of `create_hierarchical`:
voxels where the layer-2 array is in the Destrieux band (`combined >= 60`) and the
Levinson mask holds. -/
def destrieux_replaced_by_levinson (lev tian des : ι → ℤ) : ℕ :=
  (Finset.univ.filter (fun v => 60 ≤ hierPaint2 5 59 des tian v ∧ 0 < lev v)).card

/-- Pairwise overlap `overlaps["levinson_tian"]` of `create_with_overlaps`. -/
def overlap_levinson_tian (lev tian : ι → ℤ) : ℕ :=
  (Finset.univ.filter (fun v => 0 < lev v ∧ 0 < tian v)).card

/-- Pairwise overlap `overlaps["levinson_destrieux"]` of `create_with_overlaps`. -/
def overlap_levinson_destrieux (lev des : ι → ℤ) : ℕ :=
  (Finset.univ.filter (fun v => 0 < lev v ∧ 0 < des v)).card

/-- Pairwise overlap `overlaps["tian_destrieux"]` of `create_with_overlaps`. -/
def overlap_tian_destrieux (tian des : ι → ℤ) : ℕ :=
  (Finset.univ.filter (fun v => 0 < tian v ∧ 0 < des v)).card

/-- Three-way overlap `overlaps["all_three"]` of `create_with_overlaps`. -/
def overlap_all_three (lev tian des : ι → ℤ) : ℕ :=
  (Finset.univ.filter (fun v => 0 < lev v ∧ 0 < tian v ∧ 0 < des v)).card

/-- Documented label ranges of `create_hierarchical` ("Levinson: 1-5", "Tian: 6-59
(offset +5, Tian has 54 regions)", "Destrieux: 60-207 (offset +59, 148 regions)"):
the input layers carry non-negative codes within their declared bands. -/
def InRanges (lev tian des : ι → ℤ) : Prop :=
  (∀ v, 0 ≤ lev v ∧ lev v ≤ 5) ∧ (∀ v, 0 ≤ tian v ∧ tian v ≤ 54) ∧
    (∀ v, 0 ≤ des v ∧ des v ≤ 148)

end FusionDefs

section ReindexerDefs

variable {ι : Type} [Fintype ι] [DecidableEq ι]

/-- The distinct positive labels of an atlas volume:
`np.unique(atlas_data[atlas_data > 0])` in `create_reindexing_map`. -/
def presentLabels (A : ι → ℤ) : Finset ℤ :=
  (Finset.univ.image A).filter (fun l => 0 < l)

/-- The list `old_labels = sorted(np.unique(atlas_data[atlas_data > 0]))`. -/
def old_labels (A : ι → ℤ) : List ℤ :=
  (presentLabels A).sort (· ≤ ·)

/-- The traversal order of `create_reindexing_map`: Levinson labels (`< 100`),
then Tian labels (`100 <= l < 200`), then Destrieux labels (`>= 200`), each
bucket in ascending order (filtering a sorted list keeps it sorted, matching
the `sorted(...)` calls in the source). -/
def orderedOldLabels (ls : List ℤ) : List ℤ :=
  ls.filter (fun l => decide (l < 100)) ++
    ls.filter (fun l => decide (100 ≤ l ∧ l < 200)) ++
    ls.filter (fun l => decide (200 ≤ l))

/-- The successive `reindex_map[old_label] = new_index` assignments: the ordered
old labels paired with the running counter `new_index = 1, 2, ...`. -/
def reindexPairs (ls : List ℤ) : List (ℤ × ℕ) :=
  (orderedOldLabels ls).zip (List.range' 1 (orderedOldLabels ls).length)

/-- The function `create_reindexing_map` of src/legacy_scripts/reindex_atlas.py, as the
association list old label → new sequential index. -/
def create_reindexing_map (A : ι → ℤ) : List (ℤ × ℕ) :=
  reindexPairs (old_labels A)

/-- The function `create_reindexed_atlas`: starting from a zero `int16` array, successively
execute `new_atlas_data[atlas_data == old_label] = new_label` for the map's
entries, in order. -/
def applyReindexMap (pairs : List (ℤ × ℕ)) (A : ι → ℤ) : ι → ℤ :=
  fun v => pairs.foldl (fun acc p => if A v = p.1 then toInt16 (p.2 : ℤ) else acc) 0

end ReindexerDefs

section LookupTableDefs

/-- The list `sorted(np.unique(values))` restricted to positive labels, computed from an
explicit traversal `e` of the array's values: the result is the ascending list of
distinct positive values and does not depend on the traversal order. -/
def uniqueSortedPos (e : List ℤ) : List ℤ :=
  ((e.filter (fun l => decide (0 < l))).toFinset).sort (· ≤ ·)

/-- The function `create_reindexing_map` expressed over an explicit traversal of the fused
volume's values (the argument of `np.unique`). -/
def create_reindexing_map_fromList (e : List ℤ) : List (ℤ × ℕ) :=
  reindexPairs (uniqueSortedPos e)

/-- The clamping `min(255, max(0, c))` of a color channel. -/
def clamp255 (x : ℤ) : ℤ := min 255 (max 0 x)

/-- One line of the MRIcrogl lookup table. -/
structure LutRow where
  idx : ℕ
  r : ℤ
  g : ℤ
  b : ℤ
  label : String
deriving DecidableEq

/-- The per-band color scheme of `create_sequential_lookup_table`
(Levinson `old < 100`, Tian `100 <= old < 200` with `original_idx = old - 100`,
Destrieux `old >= 200` with `original_idx = old - 200`). -/
def lutColor (old : ℤ) : ℤ × ℤ × ℤ :=
  if old < 100 then
    (clamp255 (255 - old * 20), clamp255 (100 + old * 30), clamp255 50)
  else if old < 200 then
    (clamp255 (50 + (old - 100) % 5 * 20), clamp255 (150 + (old - 100) % 10 * 10),
      clamp255 (100 + (old - 100) % 5 * 20))
  else
    (clamp255 (100 + (old - 200) % 5 * 20), clamp255 (100 + (old - 200) % 10 * 10),
      clamp255 (200 + (old - 200) % 3 * 20))

/-- The source tag of a band. -/
def lutSource (old : ℤ) : String :=
  if old < 100 then ("Levinson") else if old < 200 then ("Tian") else ("Destrieux")

/-- One emitted row `new_idx, r, g, b, source:name`; `nameOf` stands for the
per-source label tables (text files outside the repository) composed with the
band subtraction. -/
def lutRowFor (nameOf : ℤ → String) (old : ℤ) (newIdx : ℕ) : LutRow :=
  { idx := newIdx, r := (lutColor old).1, g := (lutColor old).2.1,
    b := (lutColor old).2.2, label := lutSource old ++ ":" ++ nameOf old }

/-- The function `create_sequential_lookup_table` of src/legacy_scripts/reindex_atlas.py:
iterate the new indices in `sorted(reverse_map.keys())` order and emit one colored
row per region, recovering the old index from the reversed map. -/
def create_sequential_lookup_table (nameOf : ℤ → String)
    (pairs : List (ℤ × ℕ)) : List LutRow :=
  (((pairs.map Prod.snd).toFinset).sort (· ≤ ·)).filterMap
    (fun n => (pairs.find? (fun p => p.2 == n)).map (fun p => lutRowFor nameOf p.1 n))

end LookupTableDefs

section ValidatorDefs

variable {ι : Type} [Fintype ι] [DecidableEq ι]

/-- The voxels carrying a given label. -/
def labelSet (A : ι → ℤ) (l : ℤ) : Finset ι :=
  Finset.univ.filter (fun v => A v = l)

/-- Voxel count of a label: `np.sum(data == label)`. -/
def countLabel (A : ι → ℤ) (l : ℤ) : ℕ := (labelSet A l).card

/-- The value `ndimage.center_of_mass` computes on a boolean mask: the arithmetic mean of the
member voxels' coordinates. -/
def centroid (coords : ι → ℚ × ℚ × ℚ) (s : Finset ι) : ℚ × ℚ × ℚ :=
  ((∑ v in s, (coords v).1) / s.card, (∑ v in s, (coords v).2.1) / s.card,
    (∑ v in s, (coords v).2.2) / s.card)

/-- Squared Euclidean distance between two world-space points, matching the
source's explicit three-term sum of squared coordinate differences. -/
def distSq (p q : ℚ × ℚ × ℚ) : ℚ :=
  (p.1 - q.1) ^ 2 + (p.2.1 - q.2.1) ^ 2 + (p.2.2 - q.2.2) ^ 2

/-- The source's `'MATCH' if distance < 2.0 else 'MISMATCH'` flag, on the
squared distance: the 2.0 mm threshold is a hard-coded literal. -/
def match_statusOf (d2 : ℚ) : Bool := decide (d2 < 4)

/-- Modelled from the spec: the pass/fail flag computed against a caller-supplied
`tolerance_mm` (spec §4.3), on the squared distance; the spec's configurable
tolerance parameter is missing from the code under src/. -/
def match_status_spec (tol d2 : ℚ) : Bool := decide (d2 < tol ^ 2)

/-- One row of the validation results table. -/
structure ValRow where
  source : String
  old_index : ℤ
  new_index : ℕ
  origC : ℚ × ℚ × ℚ
  seqC : ℚ × ℚ × ℚ
  dist2 : ℚ
  status : Bool
deriving DecidableEq

/-- One iteration of the per-region loop of `validate_centroids_across_atlases`:
the row is emitted only when the old index is a key of the reindexing map
(`if old_idx in reindex_map`), the original layer has voxels for it
(`if np.any(mask)`), and the sequential atlas contains the new index
(`seq_centroids.get(new_idx, {})` truthy); otherwise the region is skipped
without any output.  `oaff`/`saff` stand for `nib.affines.apply_affine` with the
respective image's affine. -/
def regionRow (src : String) (pairs : List (ℤ × ℕ)) (orig : ι → ℤ)
    (ocoords : ι → ℚ × ℚ × ℚ) (oaff : ℚ × ℚ × ℚ → ℚ × ℚ × ℚ)
    (seqv : ι → ℤ) (scoords : ι → ℚ × ℚ × ℚ) (saff : ℚ × ℚ × ℚ → ℚ × ℚ × ℚ)
    (old : ℤ) : Option ValRow :=
  match List.lookup old pairs with
  | none => none
  | some new =>
    if countLabel orig old ≠ 0 then
      if 0 < (new : ℤ) ∧ countLabel seqv (new : ℤ) ≠ 0 then
        some { source := src, old_index := old, new_index := new,
               origC := oaff (centroid ocoords (labelSet orig old)),
               seqC := saff (centroid scoords (labelSet seqv (new : ℤ))),
               dist2 := distSq (oaff (centroid ocoords (labelSet orig old)))
                 (saff (centroid scoords (labelSet seqv (new : ℤ)))),
               status := match_statusOf (distSq
                 (oaff (centroid ocoords (labelSet orig old)))
                 (saff (centroid scoords (labelSet seqv (new : ℤ))))) }
      else none
    else none

/-- The `validation_results` list built by one source's loop
(`for old_idx in range(...)`) in `validate_centroids_across_atlases`. -/
def validationRows (src : String) (pairs : List (ℤ × ℕ)) (orig : ι → ℤ)
    (ocoords : ι → ℚ × ℚ × ℚ) (oaff : ℚ × ℚ × ℚ → ℚ × ℚ × ℚ)
    (seqv : ι → ℤ) (scoords : ι → ℚ × ℚ × ℚ) (saff : ℚ × ℚ × ℚ → ℚ × ℚ × ℚ)
    (cands : List ℤ) : List ValRow :=
  cands.filterMap (regionRow src pairs orig ocoords oaff seqv scoords saff)

end ValidatorDefs

section AlignmentDefs

variable {ι : Type} [Fintype ι] [DecidableEq ι]

/-- Spatial metadata of a loaded NIfTI image: grid shape, voxel sizes
(`header.get_zooms()[:3]`) and the flattened 4×4 voxel→world affine. -/
structure AtlasHeader where
  shape : List ℕ
  zooms : List ℚ
  affine : List ℚ
deriving DecidableEq

/-- The test `np.allclose(xs, ys, rtol, atol)` on equal-shaped arrays:
elementwise `|a - b| <= atol + rtol * |b|`. -/
def allclose (rtol atol : ℚ) (xs ys : List ℚ) : Bool :=
  xs.length == ys.length &&
    (xs.zip ys).all (fun p => decide (|p.1 - p.2| ≤ atol + rtol * |p.2|))

/-- The function `check_spatial_alignment` of src/legacy_scripts/create_levtiades_atlas.py:
shapes equal (chained `==`), voxel sizes `np.allclose` with default tolerances
(`rtol=1e-5`, `atol=1e-8`), affines `np.allclose` with `atol=1e-3`. -/
def check_spatial_alignment (L T D : AtlasHeader) : Bool :=
  (L.shape == T.shape && T.shape == D.shape) &&
    (allclose (1 / 100000) (1 / 100000000) L.zooms T.zooms &&
      allclose (1 / 100000) (1 / 100000000) T.zooms D.zooms) &&
    (allclose (1 / 100000) (1 / 1000) L.affine T.affine &&
      allclose (1 / 100000) (1 / 1000) T.affine D.affine)

/-- A loaded label image: header plus voxel data. -/
structure Atlas (ι : Type) where
  hdr : AtlasHeader
  data : ι → ℤ

/-- Steps 3–6 of the main flow of src/legacy_scripts/create_levtiades_atlas.py:
check spatial alignment and, when the check fails, resample Levinson and
Destrieux onto the Tian grid (`align_atlases_to_common_space`; the
nearest-neighbour resampling itself is `nilearn.image.resample_to_img`, an
external collaborator per the spec, hence a function parameter here), then fuse
hierarchically.  The returned flag records whether the inputs were aligned.
The flow has no abort path: `none` is never produced. -/
def create_levtiades_main_flow (resampleLev resampleDes : (ι → ℤ) → (ι → ℤ))
    (L T D : Atlas ι) : Option ((ι → ℤ) × Bool) :=
  if check_spatial_alignment L.hdr T.hdr D.hdr then
    some (create_levtiades_hierarchical_combined L.data T.data D.data, true)
  else
    some (create_levtiades_hierarchical_combined
      (resampleLev L.data) T.data (resampleDes D.data), false)

end AlignmentDefs

section WitnessData

/-- Voxel coordinates of a concrete 2-voxel grid. -/
def cW : Fin 2 → ℚ × ℚ × ℚ := ![(0, 0, 0), (1, 0, 0)]

/-- A concrete single-layer volume: region 1 occupies the first voxel. -/
def volW : Fin 2 → ℤ := ![1, 0]

/-- The validation row produced for region 1 of `volW` compared against itself. -/
def rowW : ValRow :=
  { source := "Levinson", old_index := 1, new_index := 1, origC := (0, 0, 0),
    seqC := (0, 0, 0), dist2 := 0, status := true }

/-- An original layer holding region 3 with one voxel. -/
def origXC : Fin 2 → ℤ := ![3, 0]

/-- A fused volume in which region 3 was fully overwritten (extinguished):
only label 1 survives. -/
def seqXC : Fin 2 → ℤ := ![1, 1]

/-- A 2×1×1 grid header with identity affine. -/
def hdrA : AtlasHeader :=
  { shape := [2, 1, 1], zooms := [1, 1, 1],
    affine := [1, 0, 0, 0, 0, 1, 0, 0, 0, 0, 1, 0, 0, 0, 0, 1] }

/-- A 1×1×2 grid header with identity affine: same voxel count, different shape. -/
def hdrB : AtlasHeader :=
  { shape := [1, 1, 2], zooms := [1, 1, 1],
    affine := [1, 0, 0, 0, 0, 1, 0, 0, 0, 0, 1, 0, 0, 0, 0, 1] }

end WitnessData

section FusionLemmas

variable {ι : Type} [Fintype ι] [DecidableEq ι]

theorem toInt16_eq_self {x : ℤ} (h1 : -32768 ≤ x) (h2 : x < 32768) : toInt16 x = x := by
  unfold toInt16
  omega

/-- Closed form of the fused voxel value under the documented label ranges. -/
theorem hier_cases {lev tian des : ι → ℤ} (h : InRanges lev tian des) (v : ι) :
    create_hierarchical_combined lev tian des v =
      if 0 < lev v then lev v
      else if 0 < tian v then tian v + 5
      else if 0 < des v then des v + 59 else 0 := by
  obtain ⟨hl, ht, hd⟩ := h
  obtain ⟨hl1, hl2⟩ := hl v
  obtain ⟨ht1, ht2⟩ := ht v
  obtain ⟨hd1, hd2⟩ := hd v
  unfold create_hierarchical_combined hierPaint1 hierPaint2 hierPaint3
  split_ifs <;> (try rfl) <;> (rw [toInt16_eq_self] <;> omega)

/-- Closed form of the layer-3 paint under the documented label ranges. -/
theorem paint3_cases {des : ι → ℤ} (hd : ∀ v, 0 ≤ des v ∧ des v ≤ 148) (v : ι) :
    hierPaint3 59 des v = if 0 < des v then des v + 59 else 0 := by
  obtain ⟨hd1, hd2⟩ := hd v
  unfold hierPaint3
  split_ifs <;> (try rfl) <;> (rw [toInt16_eq_self] <;> omega)

/-- Closed form of the layer-2 paint under the documented label ranges. -/
theorem paint2_cases {tian des : ι → ℤ} (ht : ∀ v, 0 ≤ tian v ∧ tian v ≤ 54)
    (hd : ∀ v, 0 ≤ des v ∧ des v ≤ 148) (v : ι) :
    hierPaint2 5 59 des tian v =
      if 0 < tian v then tian v + 5 else if 0 < des v then des v + 59 else 0 := by
  obtain ⟨ht1, ht2⟩ := ht v
  unfold hierPaint2
  rw [paint3_cases hd v]
  split_ifs <;> (try rfl) <;> (rw [toInt16_eq_self] <;> omega)

theorem card_filter_and_not (P Q : ι → Prop) [DecidablePred P] [DecidablePred Q] :
    (Finset.univ.filter (fun v => P v ∧ ¬ Q v)).card =
      (Finset.univ.filter (fun v => P v)).card -
        (Finset.univ.filter (fun v => P v ∧ Q v)).card := by
  have hsub : (Finset.univ.filter (fun v => P v ∧ Q v)) ⊆
      (Finset.univ.filter (fun v : ι => P v)) := by
    intro v hv
    simp only [Finset.mem_filter] at hv ⊢
    exact ⟨hv.1, hv.2.1⟩
  have hsd : (Finset.univ.filter (fun v => P v ∧ ¬ Q v)) =
      (Finset.univ.filter (fun v : ι => P v)) \
        (Finset.univ.filter (fun v => P v ∧ Q v)) := by
    ext v
    simp only [Finset.mem_filter, Finset.mem_sdiff, Finset.mem_univ, true_and]
    tauto
  rw [hsd, Finset.card_sdiff hsub]

end FusionLemmas

section FusionClaims

variable {ι : Type} [Fintype ι] [DecidableEq ι]

/-- C1. Partition invariant of the fusion step: wherever some layer is non-zero the
fused volume is non-zero and carries the band-offset code of the highest-priority
non-zero layer; in particular no lower-priority code survives where a
higher-priority layer is non-zero. -/
theorem claim_C1_partition_invariant (lev tian des : ι → ℤ)
    (h : InRanges lev tian des) (v : ι) :
    ((0 < lev v ∨ 0 < tian v ∨ 0 < des v) →
        0 < create_hierarchical_combined lev tian des v) ∧
    (0 < lev v → create_hierarchical_combined lev tian des v = lev v) ∧
    (lev v = 0 → 0 < tian v → create_hierarchical_combined lev tian des v = tian v + 5) ∧
    (lev v = 0 → tian v = 0 → 0 < des v →
        create_hierarchical_combined lev tian des v = des v + 59) := by
  have hc := hier_cases h v
  obtain ⟨hl, ht, hd⟩ := h
  obtain ⟨hl1, hl2⟩ := hl v
  obtain ⟨ht1, ht2⟩ := ht v
  obtain ⟨hd1, hd2⟩ := hd v
  refine ⟨?_, ?_, ?_, ?_⟩ <;> intros <;> rw [hc] <;> split_ifs <;> omega

/-- Concrete instantiation of `claim_C1_partition_invariant` on a 2-voxel grid. -/
theorem claim_C1_partition_invariant_witness :
    create_hierarchical_combined (![1, 0] : Fin 2 → ℤ) ![2, 2] ![0, 3] 0 = 1 ∧
    create_hierarchical_combined (![1, 0] : Fin 2 → ℤ) ![2, 2] ![0, 3] 1 = 2 + 5 :=
  ⟨(claim_C1_partition_invariant ![1, 0] ![2, 2] ![0, 3]
      (by refine ⟨?_, ?_, ?_⟩ <;> decide) 0).2.1 (by decide),
   (claim_C1_partition_invariant ![1, 0] ![2, 2] ![0, 3]
      (by refine ⟨?_, ?_, ?_⟩ <;> decide) 1).2.2.1 (by decide) (by decide)⟩

/-- C2. Conservation: the fused volume has exactly as many non-zero voxels as the
union of the input layers' supports. -/
theorem claim_C2_conservation (lev tian des : ι → ℤ) (h : InRanges lev tian des) :
    (Finset.univ.filter (fun v => create_hierarchical_combined lev tian des v ≠ 0)).card =
      (Finset.univ.filter (fun v => lev v ≠ 0 ∨ tian v ≠ 0 ∨ des v ≠ 0)).card := by
  apply congrArg Finset.card
  apply Finset.filter_congr
  intro v _
  have hc := hier_cases h v
  obtain ⟨hl, ht, hd⟩ := h
  obtain ⟨hl1, hl2⟩ := hl v
  obtain ⟨ht1, ht2⟩ := ht v
  obtain ⟨hd1, hd2⟩ := hd v
  rw [hc]
  split_ifs <;> constructor <;> intro <;> omega

/-- Concrete instantiation of `claim_C2_conservation` on a 2-voxel grid. -/
theorem claim_C2_conservation_witness :
    (Finset.univ.filter
        (fun v => create_hierarchical_combined (![1, 0] : Fin 2 → ℤ) ![2, 2] ![0, 3] v ≠ 0)).card =
      (Finset.univ.filter
        (fun v => (![1, 0] : Fin 2 → ℤ) v ≠ 0 ∨ (![2, 2] : Fin 2 → ℤ) v ≠ 0 ∨
          (![0, 3] : Fin 2 → ℤ) v ≠ 0)).card :=
  claim_C2_conservation ![1, 0] ![2, 2] ![0, 3] (by refine ⟨?_, ?_, ?_⟩ <;> decide)

/-- C9. Ledger/overlap consistency of `create_hierarchical`:
`destrieux_replaced_by_tian` equals the tian∧destrieux overlap,
`tian_replaced_by_levinson` equals the levinson∧tian overlap, and
`destrieux_replaced_by_levinson` equals the levinson∧destrieux overlap minus the
three-way overlap. -/
theorem claim_C9_ledger_overlap_consistency (lev tian des : ι → ℤ)
    (h : InRanges lev tian des) :
    destrieux_replaced_by_tian tian des = overlap_tian_destrieux tian des ∧
    tian_replaced_by_levinson lev tian des = overlap_levinson_tian lev tian ∧
    destrieux_replaced_by_levinson lev tian des =
      overlap_levinson_destrieux lev des - overlap_all_three lev tian des := by
  obtain ⟨hl, ht, hd⟩ := h
  refine ⟨?_, ?_, ?_⟩
  · apply congrArg Finset.card
    apply Finset.filter_congr
    intro v _
    obtain ⟨hd1, hd2⟩ := hd v
    rw [paint3_cases hd v]
    split_ifs <;> constructor <;> intro <;> omega
  · apply congrArg Finset.card
    apply Finset.filter_congr
    intro v _
    obtain ⟨ht1, ht2⟩ := ht v
    obtain ⟨hd1, hd2⟩ := hd v
    rw [paint2_cases ht hd v]
    split_ifs <;> constructor <;> intro <;> omega
  · unfold destrieux_replaced_by_levinson overlap_levinson_destrieux overlap_all_three
    have h1 : (Finset.univ.filter (fun v => 60 ≤ hierPaint2 5 59 des tian v ∧ 0 < lev v)) =
        (Finset.univ.filter (fun v => (0 < lev v ∧ 0 < des v) ∧ ¬ (0 < tian v))) := by
      apply Finset.filter_congr
      intro v _
      obtain ⟨ht1, ht2⟩ := ht v
      obtain ⟨hd1, hd2⟩ := hd v
      rw [paint2_cases ht hd v]
      split_ifs <;> constructor <;> intro <;> omega
    have h2 : (Finset.univ.filter (fun v => (0 < lev v ∧ 0 < des v) ∧ 0 < tian v)) =
        (Finset.univ.filter (fun v => 0 < lev v ∧ 0 < tian v ∧ 0 < des v)) := by
      apply Finset.filter_congr
      intro v _
      tauto
    rw [h1, card_filter_and_not (fun v => 0 < lev v ∧ 0 < des v) (fun v => 0 < tian v), h2]

/-- Concrete instantiation of `claim_C9_ledger_overlap_consistency` on a 3-voxel grid. -/
theorem claim_C9_ledger_overlap_consistency_witness :
    destrieux_replaced_by_tian (![2, 0, 2] : Fin 3 → ℤ) ![3, 3, 3] =
      overlap_tian_destrieux (![2, 0, 2] : Fin 3 → ℤ) ![3, 3, 3] ∧
    tian_replaced_by_levinson (![1, 1, 0] : Fin 3 → ℤ) ![2, 0, 2] ![3, 3, 3] =
      overlap_levinson_tian (![1, 1, 0] : Fin 3 → ℤ) ![2, 0, 2] ∧
    destrieux_replaced_by_levinson (![1, 1, 0] : Fin 3 → ℤ) ![2, 0, 2] ![3, 3, 3] =
      overlap_levinson_destrieux (![1, 1, 0] : Fin 3 → ℤ) ![3, 3, 3] -
        overlap_all_three (![1, 1, 0] : Fin 3 → ℤ) ![2, 0, 2] ![3, 3, 3] :=
  claim_C9_ledger_overlap_consistency ![1, 1, 0] ![2, 0, 2] ![3, 3, 3]
    (by refine ⟨?_, ?_, ?_⟩ <;> decide)

end FusionClaims

section ReindexerLemmas

variable {ι : Type} [Fintype ι] [DecidableEq ι]

theorem orderedOldLabels_perm (ls : List ℤ) : List.Perm (orderedOldLabels ls) ls := by
  unfold orderedOldLabels
  have e2 : ls.filter (fun l => decide (100 ≤ l ∧ l < 200)) =
      (ls.filter (fun l => !decide (l < 100))).filter (fun l => decide (l < 200)) := by
    rw [List.filter_filter]
    congr 1
    funext l
    by_cases h1 : l < 100 <;> by_cases h2 : l < 200 <;> simp [h1, h2] <;> omega
  have e3 : ls.filter (fun l => decide (200 ≤ l)) =
      (ls.filter (fun l => !decide (l < 100))).filter (fun l => !decide (l < 200)) := by
    rw [List.filter_filter]
    congr 1
    funext l
    by_cases h1 : l < 100 <;> by_cases h2 : l < 200 <;> simp [h1, h2] <;> omega
  rw [List.append_assoc, e2, e3]
  refine List.Perm.trans (List.Perm.append_left _ (List.filter_append_perm _ _)) ?_
  exact List.filter_append_perm _ _

theorem orderedOldLabels_length (ls : List ℤ) :
    (orderedOldLabels ls).length = ls.length :=
  (orderedOldLabels_perm ls).length_eq

theorem orderedOldLabels_nodup {ls : List ℤ} (h : ls.Nodup) :
    (orderedOldLabels ls).Nodup :=
  ((orderedOldLabels_perm ls).nodup_iff).mpr h

theorem reindexPairs_map_snd (ls : List ℤ) :
    (reindexPairs ls).map Prod.snd = List.range' 1 (orderedOldLabels ls).length :=
  List.map_snd_zip _ _ (by rw [List.length_range'])

theorem reindexPairs_map_fst (ls : List ℤ) :
    (reindexPairs ls).map Prod.fst = orderedOldLabels ls :=
  List.map_fst_zip _ _ (by rw [List.length_range'])

theorem mem_zip_range' {xs : List ℤ} {l : ℤ} (h : l ∈ xs) (s : ℕ) :
    ∃ n, (l, n) ∈ xs.zip (List.range' s xs.length) ∧ s ≤ n ∧ n < s + xs.length := by
  induction xs generalizing s with
  | nil => simp at h
  | cons a t ih =>
    rw [List.length_cons, List.range'_succ]
    rcases List.mem_cons.mp h with h1 | h1
    · subst h1
      exact ⟨s, List.mem_cons_self _ _, le_refl s, by omega⟩
    · obtain ⟨n, hn, hn1, hn2⟩ := ih h1 (s + 1)
      exact ⟨n, List.mem_cons_of_mem _ hn, by omega, by omega⟩

theorem reindexPairs_mem {ls : List ℤ} {p : ℤ × ℕ} (h : p ∈ reindexPairs ls) :
    p.1 ∈ ls ∧ 1 ≤ p.2 ∧ p.2 ≤ ls.length := by
  obtain ⟨h1, h2⟩ := List.of_mem_zip h
  refine ⟨(orderedOldLabels_perm ls).mem_iff.mp h1, ?_, ?_⟩
  · exact (List.mem_range'_1.mp h2).1
  · have := (List.mem_range'_1.mp h2).2
    rw [orderedOldLabels_length] at this
    omega

theorem reindexPairs_exists_of_mem {ls : List ℤ} {l : ℤ} (h : l ∈ ls) :
    ∃ n, (l, n) ∈ reindexPairs ls := by
  have h2 : l ∈ orderedOldLabels ls := (orderedOldLabels_perm ls).mem_iff.mpr h
  obtain ⟨n, hn, _, _⟩ := mem_zip_range' h2 1
  exact ⟨n, hn⟩

theorem reindexPairs_keys_nodup {ls : List ℤ} (h : ls.Nodup) :
    ((reindexPairs ls).map Prod.fst).Nodup := by
  rw [reindexPairs_map_fst]
  exact orderedOldLabels_nodup h

theorem reindexPairs_snds_nodup (ls : List ℤ) :
    ((reindexPairs ls).map Prod.snd).Nodup := by
  rw [reindexPairs_map_snd]
  exact List.nodup_range' _ _

theorem reindexPairs_length (ls : List ℤ) :
    (reindexPairs ls).length = ls.length := by
  unfold reindexPairs
  rw [List.length_zip, List.length_range', orderedOldLabels_length, min_self]

theorem foldl_overwrite_not_mem {pairs : List (ℤ × ℕ)} {x : ℤ}
    (h : ∀ p ∈ pairs, x ≠ p.1) (init : ℤ) :
    pairs.foldl (fun acc p => if x = p.1 then toInt16 (p.2 : ℤ) else acc) init = init := by
  induction pairs generalizing init with
  | nil => rfl
  | cons q t ih =>
    rw [List.foldl_cons, if_neg (h q (List.mem_cons_self _ _))]
    exact ih (fun p hp => h p (List.mem_cons_of_mem _ hp)) init

theorem foldl_overwrite_mem {pairs : List (ℤ × ℕ)} {x : ℤ} {n : ℕ}
    (hnd : (pairs.map Prod.fst).Nodup) (h : (x, n) ∈ pairs) (init : ℤ) :
    pairs.foldl (fun acc p => if x = p.1 then toInt16 (p.2 : ℤ) else acc) init
      = toInt16 (n : ℤ) := by
  induction pairs generalizing init with
  | nil => simp at h
  | cons q t ih =>
    simp only [List.map_cons, List.nodup_cons] at hnd
    rcases List.mem_cons.mp h with h1 | h1
    · rw [List.foldl_cons, ← h1, if_pos rfl]
      refine foldl_overwrite_not_mem ?_ _
      intro p hp he
      rw [← h1] at hnd
      exact hnd.1 (he ▸ List.mem_map.mpr ⟨p, hp, rfl⟩)
    · have hne : x ≠ q.1 := by
        intro he
        exact hnd.1 (he ▸ List.mem_map.mpr ⟨(x, n), h1, rfl⟩)
      rw [List.foldl_cons, if_neg hne]
      exact ih hnd.2 h1 init

theorem applyReindexMap_of_mem {pairs : List (ℤ × ℕ)} {A : ι → ℤ} {v : ι} {n : ℕ}
    (hnd : (pairs.map Prod.fst).Nodup) (h : (A v, n) ∈ pairs) :
    applyReindexMap pairs A v = toInt16 (n : ℤ) :=
  foldl_overwrite_mem hnd h 0

theorem applyReindexMap_of_not_mem {pairs : List (ℤ × ℕ)} {A : ι → ℤ} {v : ι}
    (h : ∀ p ∈ pairs, A v ≠ p.1) :
    applyReindexMap pairs A v = 0 :=
  foldl_overwrite_not_mem h 0

theorem mem_presentLabels {A : ι → ℤ} {l : ℤ} :
    l ∈ presentLabels A ↔ (0 < l ∧ ∃ v, A v = l) := by
  unfold presentLabels
  simp only [Finset.mem_filter, Finset.mem_image, Finset.mem_univ, true_and]
  tauto

theorem mem_old_labels {A : ι → ℤ} {l : ℤ} :
    l ∈ old_labels A ↔ l ∈ presentLabels A := by
  unfold old_labels
  exact Finset.mem_sort _

theorem old_labels_nodup (A : ι → ℤ) : (old_labels A).Nodup :=
  (presentLabels A).sort_nodup _

theorem old_labels_length (A : ι → ℤ) :
    (old_labels A).length = (presentLabels A).card :=
  (presentLabels A).length_sort _

theorem create_reindexing_map_keys_nodup (A : ι → ℤ) :
    ((create_reindexing_map A).map Prod.fst).Nodup :=
  reindexPairs_keys_nodup (old_labels_nodup A)

theorem create_reindexing_map_mem {A : ι → ℤ} {p : ℤ × ℕ}
    (h : p ∈ create_reindexing_map A) :
    p.1 ∈ presentLabels A ∧ 1 ≤ p.2 ∧ p.2 ≤ (presentLabels A).card := by
  have h2 := reindexPairs_mem h
  rw [old_labels_length] at h2
  exact ⟨mem_old_labels.mp h2.1, h2.2.1, h2.2.2⟩

theorem create_reindexing_map_exists {A : ι → ℤ} {l : ℤ} (h : l ∈ presentLabels A) :
    ∃ n, (l, n) ∈ create_reindexing_map A :=
  reindexPairs_exists_of_mem (mem_old_labels.mpr h)

/-- A voxel with a positive label is sent to the new index of its label's map
entry (the `int16` store does not wrap as long as at most 32767 regions exist). -/
theorem apply_create_pos {A : ι → ℤ} (hK : (presentLabels A).card ≤ 32767)
    {v : ι} (h : 0 < A v) :
    ∃ n, (A v, n) ∈ create_reindexing_map A ∧ 1 ≤ n ∧ n ≤ (presentLabels A).card ∧
      applyReindexMap (create_reindexing_map A) A v = (n : ℤ) := by
  have hmem : A v ∈ presentLabels A := mem_presentLabels.mpr ⟨h, v, rfl⟩
  obtain ⟨n, hn⟩ := create_reindexing_map_exists hmem
  have hb := create_reindexing_map_mem hn
  have hn2 : n ≤ 32767 := le_trans hb.2.2 hK
  refine ⟨n, hn, hb.2.1, hb.2.2, ?_⟩
  rw [applyReindexMap_of_mem (create_reindexing_map_keys_nodup A) hn,
    toInt16_eq_self (by omega) (by omega)]

/-- A voxel with a non-positive value matches no map key and stays zero. -/
theorem apply_create_nonpos {A : ι → ℤ} {v : ι} (h : A v ≤ 0) :
    applyReindexMap (create_reindexing_map A) A v = 0 := by
  apply applyReindexMap_of_not_mem
  intro p hp he
  have h1 := (create_reindexing_map_mem hp).1
  rw [← he] at h1
  have h2 := (mem_presentLabels.mp h1).1
  omega

/-- A map entry's new-index voxel set in the reindexed atlas is exactly the old
label's voxel set in the source atlas. -/
theorem apply_label_set_eq {A : ι → ℤ} (hK : (presentLabels A).card ≤ 32767)
    {p : ℤ × ℕ} (hp : p ∈ create_reindexing_map A) :
    Finset.univ.filter
        (fun v => applyReindexMap (create_reindexing_map A) A v = (p.2 : ℤ)) =
      Finset.univ.filter (fun v => A v = p.1) := by
  ext v
  simp only [Finset.mem_filter, Finset.mem_univ, true_and]
  have hb := create_reindexing_map_mem hp
  constructor
  · intro hv
    by_cases h : 0 < A v
    · obtain ⟨n, hn, h1, h2, h3⟩ := apply_create_pos hK h
      rw [h3] at hv
      have hnp : n = p.2 := by exact_mod_cast hv
      have hsnd : ((create_reindexing_map A).map Prod.snd).Nodup :=
        reindexPairs_snds_nodup _
      have hpq : (A v, n) = p :=
        List.inj_on_of_nodup_map hsnd hn hp (by simpa using hnp)
      rw [← hpq]
    · exfalso
      rw [apply_create_nonpos (by omega)] at hv
      have := hb.2.1
      omega
  · intro hv
    have hmem : (A v, p.2) ∈ create_reindexing_map A := by
      have hpe : p = (A v, p.2) := by
        rw [hv]
      rw [← hpe]
      exact hp
    rw [applyReindexMap_of_mem (create_reindexing_map_keys_nodup A) hmem,
      toInt16_eq_self (by omega) (by have := le_trans hb.2.2 hK; omega)]

theorem lookup_mem {l : List (ℤ × ℕ)} {a : ℤ} {b : ℕ}
    (h : List.lookup a l = some b) : (a, b) ∈ l := by
  induction l with
  | nil => simp [List.lookup] at h
  | cons p rest ih =>
    by_cases he : a == p.1
    · simp only [List.lookup, he] at h
      have hpe : p = (a, b) := by
        have h1 : a = p.1 := by simpa using he
        cases h
        cases p
        simp_all
      simp [hpe]
    · simp only [List.lookup, Bool.not_eq_true] at h he
      rw [he] at h
      exact List.mem_cons.mpr (Or.inr (ih h))

end ReindexerLemmas

section ReindexerClaims

variable {ι : Type} [Fintype ι] [DecidableEq ι]

/-- C3. Index contiguity: the set of sequential indices assigned by
`create_reindexing_map` is exactly `{1, ..., K}` where `K` is the number of
distinct positive labels present in the fused volume, with no duplicates. -/
theorem claim_C3_index_contiguity (A : ι → ℤ) :
    ((create_reindexing_map A).map Prod.snd).toFinset =
      Finset.Icc 1 ((presentLabels A).card) ∧
    ((create_reindexing_map A).map Prod.snd).Nodup := by
  constructor
  · rw [create_reindexing_map, reindexPairs_map_snd, orderedOldLabels_length,
      old_labels_length]
    ext n
    simp only [List.mem_toFinset, Finset.mem_Icc, List.mem_range'_1]
    omega
  · rw [create_reindexing_map]
    exact reindexPairs_snds_nodup _

/-- C10. Reindexing safety: applying the map built from the same atlas maps each
old label's voxel set exactly onto its new index's voxel set, keeps background
voxels at zero, and preserves the non-zero voxel count (so the
`voxel count mismatch` error branch of `create_reindexed_atlas` is unreachable). -/
theorem claim_C10_reindex_safety (A : ι → ℤ)
    (hK : (presentLabels A).card ≤ 32767) :
    (∀ v, A v = 0 → applyReindexMap (create_reindexing_map A) A v = 0) ∧
    (∀ p ∈ create_reindexing_map A,
      Finset.univ.filter
          (fun v => applyReindexMap (create_reindexing_map A) A v = (p.2 : ℤ)) =
        Finset.univ.filter (fun v => A v = p.1)) ∧
    (Finset.univ.filter
        (fun v => 0 < applyReindexMap (create_reindexing_map A) A v)).card =
      (Finset.univ.filter (fun v => 0 < A v)).card := by
  refine ⟨?_, ?_, ?_⟩
  · intro v hv
    exact apply_create_nonpos (le_of_eq hv)
  · intro p hp
    exact apply_label_set_eq hK hp
  · apply congrArg Finset.card
    apply Finset.filter_congr
    intro v _
    constructor
    · intro hv
      by_contra h
      rw [apply_create_nonpos (by omega)] at hv
      omega
    · intro hv
      obtain ⟨n, hn, h1, h2, h3⟩ := apply_create_pos hK hv
      rw [h3]
      exact_mod_cast h1

/-- Concrete instantiation of `claim_C10_reindex_safety` on a 4-voxel grid. -/
theorem claim_C10_reindex_safety_witness :
    (Finset.univ.filter
        (fun v => 0 < applyReindexMap
          (create_reindexing_map (![0, 3, 1, 3] : Fin 4 → ℤ)) ![0, 3, 1, 3] v)).card =
      (Finset.univ.filter (fun v => 0 < (![0, 3, 1, 3] : Fin 4 → ℤ) v)).card :=
  (claim_C10_reindex_safety ![0, 3, 1, 3] (by decide)).2.2

end ReindexerClaims

section LookupTableLemmas

theorem uniqueSortedPos_perm {e₁ e₂ : List ℤ} (h : List.Perm e₁ e₂) :
    uniqueSortedPos e₁ = uniqueSortedPos e₂ := by
  unfold uniqueSortedPos
  rw [List.toFinset_eq_of_perm _ _ (h.filter _)]

theorem find?_snd_eq_of_perm {pairs₁ pairs₂ : List (ℤ × ℕ)}
    (hp : List.Perm pairs₁ pairs₂) (hnd : (pairs₁.map Prod.snd).Nodup) (n : ℕ) :
    pairs₁.find? (fun p => p.2 == n) = pairs₂.find? (fun p => p.2 == n) := by
  have hnd₂ : (pairs₂.map Prod.snd).Nodup := ((hp.map Prod.snd).nodup_iff).mp hnd
  cases hf : pairs₁.find? (fun p => p.2 == n) with
  | none =>
    cases hf₂ : pairs₂.find? (fun p => p.2 == n) with
    | none => rfl
    | some q =>
      have hqmem : q ∈ pairs₁ := hp.mem_iff.mpr (List.mem_of_find?_eq_some hf₂)
      have hq := List.find?_some hf₂
      have := List.find?_eq_none.mp hf q hqmem
      simp_all
  | some q =>
    have hqmem : q ∈ pairs₂ := hp.mem_iff.mp (List.mem_of_find?_eq_some hf)
    have hq := List.find?_some hf
    cases hf₂ : pairs₂.find? (fun p => p.2 == n) with
    | none =>
      have := List.find?_eq_none.mp hf₂ q hqmem
      simp_all
    | some q' =>
      have hq'mem : q' ∈ pairs₂ := List.mem_of_find?_eq_some hf₂
      have hq' := List.find?_some hf₂
      have hqq : q = q' := by
        apply List.inj_on_of_nodup_map hnd₂ hqmem hq'mem
        simp only [beq_iff_eq] at hq hq'
        rw [hq, hq']
      rw [hqq]

end LookupTableLemmas

/-- C5. Determinism of re-runs: the fused volume, the reindexing map and the
sequential lookup table are pure functions of their inputs, independent of the
order in which the voxel values are traversed (`np.unique`'s argument order) and
of the order in which the map's entries are stored (dict iteration order) — the
source sorts in both places, so two permutation-equivalent traversals produce
identical (hence byte-identical once serialized) outputs. -/
theorem claim_C5_determinism (e₁ e₂ : List ℤ) (pairs₁ pairs₂ : List (ℤ × ℕ))
    (nameOf : ℤ → String) (he : List.Perm e₁ e₂) (hpr : List.Perm pairs₁ pairs₂)
    (hnd : (pairs₁.map Prod.snd).Nodup) :
    create_reindexing_map_fromList e₁ = create_reindexing_map_fromList e₂ ∧
    create_sequential_lookup_table nameOf pairs₁ =
      create_sequential_lookup_table nameOf pairs₂ := by
  constructor
  · unfold create_reindexing_map_fromList
    rw [uniqueSortedPos_perm he]
  · unfold create_sequential_lookup_table
    rw [List.toFinset_eq_of_perm _ _ (hpr.map Prod.snd)]
    have hf : (fun n =>
        (pairs₁.find? (fun p => p.2 == n)).map (fun p => lutRowFor nameOf p.1 n)) =
        (fun n =>
        (pairs₂.find? (fun p => p.2 == n)).map (fun p => lutRowFor nameOf p.1 n)) := by
      funext n
      rw [find?_snd_eq_of_perm hpr hnd n]
    rw [hf]

/-- Concrete instantiation of `claim_C5_determinism`: two traversal orders of the
same voxel values and two storage orders of the same map entries. -/
theorem claim_C5_determinism_witness :
    create_reindexing_map_fromList [3, 1, 3, 2] =
      create_reindexing_map_fromList [1, 3, 2, 3] ∧
    create_sequential_lookup_table (fun _ => "R") [((1 : ℤ), 1), ((103 : ℤ), 2)] =
      create_sequential_lookup_table (fun _ => "R") [((103 : ℤ), 2), ((1 : ℤ), 1)] :=
  claim_C5_determinism [3, 1, 3, 2] [1, 3, 2, 3] [((1 : ℤ), 1), ((103 : ℤ), 2)]
    [((103 : ℤ), 2), ((1 : ℤ), 1)] (fun _ => "R") (by decide) (by decide) (by decide)

section ValidatorLemmas

variable {ι : Type} [Fintype ι] [DecidableEq ι]

/-- Inversion of the validator's row construction: every emitted row comes from a
candidate index that is a key of the reindexing map, has voxels in the original
layer and whose new index is present in the sequential atlas; the row's fields are
the computed centroids, squared distance and match flag. -/
theorem validationRows_inversion {src : String} {pairs : List (ℤ × ℕ)} {orig : ι → ℤ}
    {ocoords : ι → ℚ × ℚ × ℚ} {oaff : ℚ × ℚ × ℚ → ℚ × ℚ × ℚ} {seqv : ι → ℤ}
    {scoords : ι → ℚ × ℚ × ℚ} {saff : ℚ × ℚ × ℚ → ℚ × ℚ × ℚ} {cands : List ℤ}
    {r : ValRow}
    (hr : r ∈ validationRows src pairs orig ocoords oaff seqv scoords saff cands) :
    ∃ old new, List.lookup old pairs = some new ∧ countLabel orig old ≠ 0 ∧
      0 < (new : ℤ) ∧ countLabel seqv (new : ℤ) ≠ 0 ∧
      r.source = src ∧ r.old_index = old ∧ r.new_index = new ∧
      r.origC = oaff (centroid ocoords (labelSet orig old)) ∧
      r.seqC = saff (centroid scoords (labelSet seqv (new : ℤ))) ∧
      r.dist2 = distSq r.origC r.seqC ∧
      r.status = match_statusOf r.dist2 := by
  obtain ⟨old, hold, hrow⟩ := List.mem_filterMap.mp hr
  unfold regionRow at hrow
  cases hl : List.lookup old pairs with
  | none =>
    rw [hl] at hrow
    simp at hrow
  | some new =>
    rw [hl] at hrow
    dsimp only at hrow
    by_cases h1 : countLabel orig old ≠ 0
    · rw [if_pos h1] at hrow
      by_cases h2 : 0 < (new : ℤ) ∧ countLabel seqv (new : ℤ) ≠ 0
      · rw [if_pos h2] at hrow
        have hre := Option.some_inj.mp hrow
        refine ⟨old, new, hl, h1, h2.1, h2.2, ?_, ?_, ?_, ?_, ?_, ?_, ?_⟩ <;> rw [← hre]
      · rw [if_neg h2] at hrow
        simp at hrow
    · rw [if_neg h1] at hrow
      simp at hrow

end ValidatorLemmas

section WitnessComputation

theorem presentLabels_volW : presentLabels volW = {1} := by decide

theorem old_labels_volW : old_labels volW = [1] := by
  rw [old_labels, presentLabels_volW]
  exact Finset.sort_singleton _ _

theorem create_reindexing_map_volW :
    create_reindexing_map volW = [((1 : ℤ), (1 : ℕ))] := by
  rw [create_reindexing_map, old_labels_volW]
  rfl

theorem apply_volW : applyReindexMap [((1 : ℤ), (1 : ℕ))] volW = volW := by
  funext v
  fin_cases v <;> rfl

theorem labelSet_volW : labelSet volW 1 = {0} := by decide

theorem centroid_volW : centroid cW (labelSet volW 1) = (0, 0, 0) := by
  rw [labelSet_volW]
  unfold centroid
  rw [Finset.sum_singleton, Finset.sum_singleton, Finset.sum_singleton,
    Finset.card_singleton]
  norm_num [cW]

theorem regionRow_volW :
    regionRow ("Levinson") [((1 : ℤ), (1 : ℕ))] volW cW id volW cW id 1 = some rowW := by
  unfold regionRow
  rw [show List.lookup (1 : ℤ) [((1 : ℤ), (1 : ℕ))] = some 1 from rfl]
  dsimp only
  rw [if_pos (by decide : countLabel volW 1 ≠ 0),
    if_pos (by decide : 0 < ((1 : ℕ) : ℤ) ∧ countLabel volW ((1 : ℕ) : ℤ) ≠ 0)]
  have hc : ((1 : ℕ) : ℤ) = (1 : ℤ) := rfl
  unfold rowW
  simp only [hc, id_eq, centroid_volW, ValRow.mk.injEq, distSq, match_statusOf]
  norm_num

theorem validationRows_volW :
    validationRows ("Levinson") [((1 : ℤ), (1 : ℕ))] volW cW id volW cW id [1] =
      [rowW] := by
  unfold validationRows
  rw [List.filterMap_cons, regionRow_volW]
  rfl

end WitnessComputation

section ValidatorClaims

variable {ι : Type} [Fintype ι] [DecidableEq ι]

/-- C6 counterexample: a centroid drift of 1.5 mm (squared distance 2.25) is
flagged MATCH by the code's hard-coded `distance < 2.0` test, but fails a
caller-supplied strict tolerance of 1 mm — the pass/fail flag is not computed
against any caller-supplied `tolerance_mm`, contradicting the claim. -/
theorem claim_C6_counterexample :
    match_statusOf ((3 / 2 : ℚ) ^ 2) = true ∧
    match_status_spec 1 ((3 / 2 : ℚ) ^ 2) = false := by
  constructor
  · simp only [match_statusOf, decide_eq_true_eq]
    norm_num
  · simp only [match_status_spec, decide_eq_false_iff_not]
    norm_num

/-- C6 amended: the validator emits, per region, the original centroid, the final
centroid, the (squared) Euclidean distance and a pass/fail flag, but the flag is
computed against the single hard-coded threshold 2.0 mm: it coincides with the
spec's tolerance-parametric flag exactly at `tolerance_mm = 2`, and there is no
second configurable tier. -/
theorem claim_C6_tolerance_is_fixed (src : String) (pairs : List (ℤ × ℕ))
    (orig : ι → ℤ) (ocoords : ι → ℚ × ℚ × ℚ) (oaff : ℚ × ℚ × ℚ → ℚ × ℚ × ℚ)
    (seqv : ι → ℤ) (scoords : ι → ℚ × ℚ × ℚ) (saff : ℚ × ℚ × ℚ → ℚ × ℚ × ℚ)
    (cands : List ℤ) :
    ∀ r ∈ validationRows src pairs orig ocoords oaff seqv scoords saff cands,
      r.status = match_status_spec 2 r.dist2 := by
  intro r hr
  obtain ⟨old, new, _, _, _, _, _, _, _, _, _, _, hst⟩ := validationRows_inversion hr
  rw [hst]
  unfold match_statusOf match_status_spec
  norm_num

/-- Concrete instantiation of `claim_C6_tolerance_is_fixed` on the row emitted
for region 1 of `volW` validated against itself. -/
theorem claim_C6_tolerance_is_fixed_witness :
    rowW.status = match_status_spec 2 rowW.dist2 :=
  claim_C6_tolerance_is_fixed ("Levinson") [((1 : ℤ), (1 : ℕ))] volW cW id volW cW id
    [1] rowW (by rw [validationRows_volW]; exact List.mem_singleton.mpr rfl)

/-- C7 counterexample: region 3 has one voxel in the original layer but zero
voxels in the fused atlas (fully overwritten), and the validator's output over
the Levinson candidate range is the empty list — the extinguished region is
silently skipped and appears nowhere, contradicting the claim that it is
reported as extinguished/non-comparable. -/
theorem claim_C7_counterexample :
    countLabel origXC 3 = 1 ∧ countLabel seqXC 3 = 0 ∧
    validationRows ("Levinson") (create_reindexing_map seqXC) origXC cW id seqXC cW id
      [1, 2, 3, 4, 5] = [] := by
  have hm : create_reindexing_map seqXC = [((1 : ℤ), (1 : ℕ))] := by
    rw [create_reindexing_map, old_labels,
      (by decide : presentLabels seqXC = {1}), Finset.sort_singleton]
    rfl
  refine ⟨by decide, by decide, ?_⟩
  rw [hm]
  rfl

/-- C7 amended: the validator emits a row only for regions present in BOTH the
original layer and the fused/sequential atlas (and listed in the reindexing map);
a region extinguished during fusion therefore produces no output row at all —
it is silently skipped rather than reported. -/
theorem claim_C7_extinguished_regions_skipped (src : String) (pairs : List (ℤ × ℕ))
    (orig : ι → ℤ) (ocoords : ι → ℚ × ℚ × ℚ) (oaff : ℚ × ℚ × ℚ → ℚ × ℚ × ℚ)
    (seqv : ι → ℤ) (scoords : ι → ℚ × ℚ × ℚ) (saff : ℚ × ℚ × ℚ → ℚ × ℚ × ℚ)
    (cands : List ℤ) :
    ∀ r ∈ validationRows src pairs orig ocoords oaff seqv scoords saff cands,
      countLabel orig r.old_index ≠ 0 ∧ countLabel seqv ((r.new_index : ℤ)) ≠ 0 ∧
      List.lookup r.old_index pairs = some r.new_index := by
  intro r hr
  obtain ⟨old, new, hl, h1, h2, h3, h4, h5, h6, h7, h8, h9, h10⟩ :=
    validationRows_inversion hr
  refine ⟨?_, ?_, ?_⟩
  · rw [h5]
    exact h1
  · rw [h6]
    exact h3
  · rw [h5, h6]
    exact hl

/-- Concrete instantiation of `claim_C7_extinguished_regions_skipped` on the row
emitted for region 1 of `volW` validated against itself. -/
theorem claim_C7_extinguished_regions_skipped_witness :
    countLabel volW rowW.old_index ≠ 0 ∧
    countLabel volW ((rowW.new_index : ℤ)) ≠ 0 ∧
    List.lookup rowW.old_index [((1 : ℤ), (1 : ℕ))] = some rowW.new_index :=
  claim_C7_extinguished_regions_skipped ("Levinson") [((1 : ℤ), (1 : ℕ))] volW cW id
    volW cW id [1] rowW (by rw [validationRows_volW]; exact List.mem_singleton.mpr rfl)

/-- C8 counterexample: fusing a single Tian layer (one voxel of code 1, other
layers empty) yields fused value 1 + 5 = 6 ≠ 1 at that voxel: because of the band
offset, the fused volume does not equal the single input layer exactly. -/
theorem claim_C8_counterexample :
    create_hierarchical_combined (fun _ => 0) volW (fun _ => 0) 0 = 6 ∧
    volW 0 = 1 ∧
    create_hierarchical_combined (fun _ => 0) volW (fun _ => 0) 0 ≠ volW 0 := by
  refine ⟨by decide, by decide, by decide⟩

/-- C8 amended: single-layer identity holds for the highest-priority (Levinson)
layer, whose band offset is zero: fusing it with the other layers empty
reproduces the input volume exactly, and validating the reindexed fused volume
against the original then reports squared centroid distance 0 (hence a passing
flag) for every emitted region row. -/
theorem claim_C8_single_layer_identity (lev : ι → ℤ)
    (h : ∀ v, 0 ≤ lev v ∧ lev v ≤ 5) (coords : ι → ℚ × ℚ × ℚ)
    (aff : ℚ × ℚ × ℚ → ℚ × ℚ × ℚ) (src : String) (cands : List ℤ) :
    (∀ v, create_hierarchical_combined lev (fun _ => 0) (fun _ => 0) v = lev v) ∧
    (∀ r ∈ validationRows src (create_reindexing_map lev) lev coords aff
        (applyReindexMap (create_reindexing_map lev) lev) coords aff cands,
      r.dist2 = 0 ∧ r.status = true) := by
  have hK : (presentLabels lev).card ≤ 32767 := by
    have hsub : presentLabels lev ⊆ Finset.Icc 1 5 := by
      intro l hl
      obtain ⟨hpos, v, hv⟩ := mem_presentLabels.mp hl
      obtain ⟨h1, h2⟩ := h v
      rw [Finset.mem_Icc]
      omega
    calc (presentLabels lev).card ≤ (Finset.Icc (1 : ℤ) 5).card :=
          Finset.card_le_card hsub
      _ ≤ 32767 := by decide
  constructor
  · intro v
    have hir : InRanges lev (fun _ => (0 : ℤ)) (fun _ => (0 : ℤ)) :=
      ⟨h, fun _ => by norm_num, fun _ => by norm_num⟩
    rw [hier_cases hir v]
    obtain ⟨h1, h2⟩ := h v
    split_ifs <;> omega
  · intro r hr
    obtain ⟨old, new, hl, h1, h2, h3, h4, h5, h6, h7, h8, h9, h10⟩ :=
      validationRows_inversion hr
    have hpmem : (old, new) ∈ create_reindexing_map lev := lookup_mem hl
    have hset : labelSet (applyReindexMap (create_reindexing_map lev) lev) ((new : ℤ)) =
        labelSet lev old := by
      unfold labelSet
      exact apply_label_set_eq hK hpmem
    have hco : r.seqC = r.origC := by
      rw [h8, hset, ← h7]
    have hd0 : r.dist2 = 0 := by
      rw [h9, hco]
      unfold distSq
      ring
    refine ⟨hd0, ?_⟩
    rw [h10, hd0]
    simp only [match_statusOf, decide_eq_true_eq]
    norm_num

/-- Concrete instantiation of `claim_C8_single_layer_identity` on `volW`. -/
theorem claim_C8_single_layer_identity_witness :
    create_hierarchical_combined volW (fun _ => 0) (fun _ => 0) 0 = volW 0 ∧
    (rowW.dist2 = 0 ∧ rowW.status = true) :=
  ⟨(claim_C8_single_layer_identity volW (by decide) cW id ("Levinson") [1]).1 0,
   (claim_C8_single_layer_identity volW (by decide) cW id ("Levinson") [1]).2 rowW
     (by rw [create_reindexing_map_volW, apply_volW, validationRows_volW]
         exact List.mem_singleton.mpr rfl)⟩

end ValidatorClaims

section AlignmentClaims

variable {ι : Type} [Fintype ι] [DecidableEq ι]

/-- C4 counterexample: with mismatching grid shapes the alignment check returns
false, yet the pipeline still produces a fused volume (with a non-zero voxel at
voxel 0) instead of aborting before any fused output — contradicting the claim
that a grid mismatch is fatal and that the code does not fall back to
resampling. -/
theorem claim_C4_counterexample :
    check_spatial_alignment hdrA hdrB hdrB = false ∧
    create_levtiades_main_flow id id (Atlas.mk hdrA (![1, 0] : Fin 2 → ℤ))
        (Atlas.mk hdrB ![2, 0]) (Atlas.mk hdrB ![0, 3]) =
      some (create_levtiades_hierarchical_combined (![1, 0] : Fin 2 → ℤ)
        ![2, 0] ![0, 3], false) ∧
    create_levtiades_hierarchical_combined (![1, 0] : Fin 2 → ℤ) ![2, 0] ![0, 3] 0 = 1 := by
  refine ⟨by decide, ?_, by decide⟩
  have h : check_spatial_alignment hdrA hdrB hdrB = false := by decide
  simp [create_levtiades_main_flow, h]

/-- C4 amended: when `check_spatial_alignment` fails, the legacy main flow does
not abort — it resamples Levinson and Destrieux onto the Tian grid
(`align_atlases_to_common_space`, via the external nearest-neighbour resampler)
and proceeds to hierarchical fusion, always producing a fused volume. -/
theorem claim_C4_no_abort_on_mismatch (resampleLev resampleDes : (ι → ℤ) → (ι → ℤ))
    (L T D : Atlas ι) (h : check_spatial_alignment L.hdr T.hdr D.hdr = false) :
    create_levtiades_main_flow resampleLev resampleDes L T D =
      some (create_levtiades_hierarchical_combined
        (resampleLev L.data) T.data (resampleDes D.data), false) ∧
    create_levtiades_main_flow resampleLev resampleDes L T D ≠ none := by
  unfold create_levtiades_main_flow
  rw [h]
  simp

/-- Concrete instantiation of `claim_C4_no_abort_on_mismatch` on the mismatched
headers `hdrA`/`hdrB`. -/
theorem claim_C4_no_abort_on_mismatch_witness :
    create_levtiades_main_flow id id (Atlas.mk hdrA (![1, 0] : Fin 2 → ℤ))
        (Atlas.mk hdrB ![2, 0]) (Atlas.mk hdrB ![0, 3]) =
      some (create_levtiades_hierarchical_combined (id (![1, 0] : Fin 2 → ℤ))
        ![2, 0] (id (![0, 3] : Fin 2 → ℤ)), false) ∧
    create_levtiades_main_flow id id (Atlas.mk hdrA (![1, 0] : Fin 2 → ℤ))
        (Atlas.mk hdrB ![2, 0]) (Atlas.mk hdrB ![0, 3]) ≠ none :=
  claim_C4_no_abort_on_mismatch id id (Atlas.mk hdrA ![1, 0])
    (Atlas.mk hdrB ![2, 0]) (Atlas.mk hdrB ![0, 3]) (by decide)

end AlignmentClaims
